import Mathlib

/-!
Verification of the companion coordination core: the mailbox store and
message classifier (`src/inbox.ts`), the inbox poller and task store
(`src/inbox-poller.ts`, `src/task-manager.ts`), the team manager
(`src/team-manager.ts`), and the coordinator's blocking `receive`
(modelled from the specification, the controller source not being part
of the corpus). The definitions are shallow embeddings of the
TypeScript sources; the theorems settle the specification's claims
about them.
-/

namespace Companion

/-- JSON values, the result shape of `JSON.parse`. Numbers are modelled
as integers; the classifier never inspects numeric values. -/
inductive Json where
  | null : Json
  | bool (b : Bool) : Json
  | num (n : Int) : Json
  | str (s : String) : Json
  | arr (elems : List Json) : Json
  | obj (fields : List (String × Json)) : Json

/-- A mailbox entry (`InboxMessage` in `types.ts`): sender, opaque text
payload, ISO timestamp, read flag, optional summary and display color.
The `from` field of the source is spelled `from_` (`from` is a Lean
keyword). -/
structure InboxMessage where
  from_ : String
  text : String
  timestamp : String
  read : Bool
  summary : Option String := none
  color : Option String := none
deriving Repr, DecidableEq

/-- The fields of a mailbox entry supplied by a writer
(`Omit<InboxMessage, "read">` in `writeInbox`'s signature): the store
adds `read := false` itself. -/
structure InboxDraft where
  from_ : String
  text : String
  timestamp : String
  summary : Option String := none
  color : Option String := none
deriving Repr, DecidableEq

/-- Errors surfaced by the mailbox store: `JSON.parse` throwing on a
corrupt file, and `proper-lockfile` failing to acquire the advisory
lock within its retry budget. -/
inductive InboxError where
  | malformedJson
  | lockTimeout
deriving Repr, DecidableEq

/-- The state of one on-disk mailbox file. `absent`: the file does not
exist. `corrupt raw`: the file exists with non-empty contents `raw`
that do not parse as JSON (the source reads `raw || "[]"`, so empty
contents parse as the empty array and are not corrupt). `locked msgs`:
the file holds `msgs` but another process holds the advisory lock past
the whole retry budget. `stored msgs`: the file holds the JSON array
`msgs` and the lock can be acquired. -/
inductive MailboxDisk where
  | absent
  | corrupt (raw : String)
  | locked (msgs : List InboxMessage)
  | stored (msgs : List InboxMessage)
deriving Repr, DecidableEq

/-- The entry `writeInbox` appends for a draft: the draft's fields with
`read := false`. -/
def InboxDraft.toMessage (m : InboxDraft) : InboxMessage :=
  { from_ := m.from_, text := m.text, timestamp := m.timestamp,
    summary := m.summary, color := m.color, read := false }

/-- Source `writeInbox` (src/inbox.ts): ensures the file exists (creating an
empty array if absent), then under the lock reads and parses the whole
array, appends the message with `read := false`, and writes the array
back. Lock-acquisition failure and unparseable contents are thrown to
the caller. -/
def writeInbox (disk : MailboxDisk) (m : InboxDraft) : Except InboxError MailboxDisk :=
  match disk with
  | .absent => .ok (.stored [m.toMessage])
  | .corrupt _ => .error .malformedJson
  | .locked _ => .error .lockTimeout
  | .stored msgs => .ok (.stored (msgs ++ [m.toMessage]))

/-- Source `readInbox` (src/inbox.ts): returns `[]` when the file is missing,
otherwise parses and returns the whole array; takes no lock. -/
def readInbox (disk : MailboxDisk) : Except InboxError (List InboxMessage) :=
  match disk with
  | .absent => .ok []
  | .corrupt _ => .error .malformedJson
  | .locked msgs => .ok msgs
  | .stored msgs => .ok msgs

/-- Source `readUnread` (src/inbox.ts): returns `[]` when the file is missing;
otherwise, under the lock, filters the unread messages; when there is
at least one, marks every message in the array read and persists it
before returning the previously-unread messages in their original
order; when there is none, returns `[]` without rewriting the file. -/
def readUnread (disk : MailboxDisk) : Except InboxError (List InboxMessage × MailboxDisk) :=
  match disk with
  | .absent => .ok ([], .absent)
  | .corrupt _ => .error .malformedJson
  | .locked _ => .error .lockTimeout
  | .stored msgs =>
    let unread := msgs.filter (fun m => !m.read)
    if unread.isEmpty then .ok ([], .stored msgs)
    else .ok (unread, .stored (msgs.map (fun m => { m with read := true })))

/-- A sequence of `writeInbox` calls applied in order, stopping at the
first error. -/
def writeMany (disk : MailboxDisk) (drafts : List InboxDraft) : Except InboxError MailboxDisk :=
  match drafts with
  | [] => .ok disk
  | d :: rest =>
    match writeInbox disk d with
    | .ok disk' => writeMany disk' rest
    | .error e => .error e

/-- The classifier's result (`StructuredMessage` in `types.ts`): either
the `plain_text` fallback wrapper around the raw payload, or the parsed
JSON object itself (which always carries a `"type"` key). -/
inductive StructuredMessage where
  | plainText (text : String)
  | structured (json : Json)

/-- Whether a parsed JSON object has a `"type"` key (`"type" in parsed`
in the source). -/
def hasTypeKey (fields : List (String × Json)) : Bool :=
  fields.any (fun kv => kv.fst == "type")

/-- Source `parseMessage` (src/inbox.ts), parametric in the JSON parser
(`JSON.parse`, a thrown syntax error modelled as `none`): if the
payload parses to a (non-null) object that has a `"type"` key, return
the parsed object; in every other case (parse failure, `null`, scalar,
array, or object without `"type"`) return a `plain_text` message
holding the raw payload. -/
def parseMessage (parse : String → Option Json) (msg : InboxMessage) : StructuredMessage :=
  match parse msg.text with
  | some (.obj fields) =>
    if hasTypeKey fields then .structured (.obj fields)
    else .plainText msg.text
  | _ => .plainText msg.text

/-- A poll event (`PollEvent` in src/inbox-poller.ts): the raw mailbox
entry together with its classification. -/
structure PollEvent where
  raw : InboxMessage
  parsed : StructuredMessage

/-- A handler registered with `onMessages`. A handler that throws is
modelled as returning `.error` with the thrown value's string form. -/
abbrev Handler := List PollEvent → Except String Unit

/-- Entries `poll` writes to its logger's error level: a handler that
threw, or the poll body itself throwing (a mailbox-store error). -/
inductive LogEntry where
  | handlerError (err : String)
  | pollError (err : InboxError)

/-- The handler loop of `InboxPoller.poll`: each handler is invoked with
the full event batch inside its own try/catch; a throwing handler is
logged and the loop continues with the next handler. -/
def runHandlers (handlers : List Handler) (events : List PollEvent)
    (log : List LogEntry) : List LogEntry :=
  match handlers with
  | [] => log
  | h :: rest =>
    match h events with
    | .ok _ => runHandlers rest events log
    | .error e => runHandlers rest events (log ++ [.handlerError e])

/-- Source `InboxPoller.poll` (src/inbox-poller.ts): calls `readUnread`; if it
throws, logs the error and returns `[]`; if there is nothing unread,
returns `[]` without invoking handlers; otherwise classifies every
unread entry, invokes every registered handler with the full batch
(each in its own try/catch), and returns the batch. The poll result is
(events, mailbox state afterwards, error-log entries). -/
def poll (parse : String → Option Json) (handlers : List Handler)
    (disk : MailboxDisk) : List PollEvent × MailboxDisk × List LogEntry :=
  match readUnread disk with
  | .error e => ([], disk, [.pollError e])
  | .ok (unread, disk') =>
    if unread.isEmpty then ([], disk', [])
    else
      let events := unread.map (fun raw => ⟨raw, parseMessage parse raw⟩)
      (events, disk', runHandlers handlers events [])

/-- A task file (`TaskFile` in `types.ts`), one JSON document per task. -/
structure TaskFile where
  id : String
  subject : String
  description : String
  activeForm : Option String := none
  owner : Option String := none
  status : String
  blocks : List String
  blockedBy : List String
  metadata : Option String := none
deriving Repr, DecidableEq

/-- The argument of `TaskManager.create`: every field of a task except
`id`, with `status`, `blocks` and `blockedBy` optional. -/
structure TaskDraft where
  subject : String
  description : String
  activeForm : Option String := none
  owner : Option String := none
  status : Option String := none
  blocks : Option (List String) := none
  blockedBy : Option (List String) := none
  metadata : Option String := none
deriving Repr, DecidableEq

/-- The task store's error: `get` throws "Task #id not found". -/
inductive TaskError where
  | notFound (taskId : String)
deriving Repr, DecidableEq

/-- The task store (`TaskManager` in src/task-manager.ts): the in-memory
next-id counter plus the team's task directory, one file per task id
(at `taskPath(team, id)`, so ids key the directory). -/
structure TaskManager where
  nextId : Nat
  files : List TaskFile
deriving Repr, DecidableEq

/-- A freshly constructed `TaskManager` over a task directory: the class
initializer sets `nextId = 1`. -/
def TaskManager.fresh (files : List TaskFile) : TaskManager :=
  { nextId := 1, files := files }

/-- Models `parseInt(id, 10)` restricted to the ids the store writes: the
numeric value of the leading digits, `0` when there are none (the store
only ever writes decimal ids, for which this agrees with `parseInt`). -/
def parseIntId (s : String) : Nat :=
  (s.data.takeWhile Char.isDigit).foldl (fun acc c => acc * 10 + (c.toNat - 48)) 0

/-- Source `TaskManager.list`: every task document in the team's directory,
sorted ascending by numeric id. -/
def TaskManager.list (s : TaskManager) : List TaskFile :=
  List.insertionSort (fun a b => parseIntId a.id ≤ parseIntId b.id) s.files

/-- Computes `Math.max` over the numeric ids of the scanned tasks. -/
def maxIdOf (tasks : List TaskFile) : Nat :=
  tasks.foldl (fun acc t => max acc (parseIntId t.id)) 0

/-- Source `TaskManager.init` (src/task-manager.ts): ensures the directory
exists, scans the existing tasks, and when there is at least one sets
the counter to (max numeric id + 1); an empty directory leaves the
counter as it is. -/
def TaskManager.init (s : TaskManager) : TaskManager :=
  let existing := s.list
  if existing.length > 0 then { s with nextId := maxIdOf existing + 1 }
  else s

/-- Source `writeTask`: persists the document at `taskPath(team, task.id)`,
overwriting the file with that id if it exists, creating it otherwise. -/
def TaskManager.writeTask (s : TaskManager) (task : TaskFile) : TaskManager :=
  if s.files.any (fun t => t.id == task.id) then
    { s with files := s.files.map (fun t => if t.id == task.id then task else t) }
  else
    { s with files := s.files ++ [task] }

/-- Source `TaskManager.get`: the task whose file is `taskPath(team, id)`, or
the "not found" error when no such file exists. -/
def TaskManager.get (s : TaskManager) (taskId : String) : Except TaskError TaskFile :=
  match s.files.find? (fun t => t.id == taskId) with
  | some t => .ok t
  | none => .error (.notFound taskId)

/-- Source `TaskManager.create`: assigns `String(nextId++)` as the id, defaults
`status` to `"pending"` (`task.status || "pending"`, so an empty string
also defaults) and the blocking lists to `[]`, persists, and returns
the new id. -/
def TaskManager.create (s : TaskManager) (task : TaskDraft) : String × TaskManager :=
  let id := toString s.nextId
  let full : TaskFile :=
    { id := id, subject := task.subject, description := task.description,
      activeForm := task.activeForm, owner := task.owner,
      status := match task.status with
        | some st => if st.isEmpty then "pending" else st
        | none => "pending",
      blocks := task.blocks.getD [], blockedBy := task.blockedBy.getD [],
      metadata := task.metadata }
  (id, { s.writeTask full with nextId := s.nextId + 1 })

/-- The argument of `TaskManager.update`: `Partial` over the mutable
fields of a task (everything but `id`). The outer `Option` is key
presence; for the fields that are themselves optional in `TaskFile`,
the inner `Option` is the supplied value. -/
structure TaskUpdate where
  subject : Option String := none
  description : Option String := none
  activeForm : Option (Option String) := none
  owner : Option (Option String) := none
  status : Option String := none
  blocks : Option (List String) := none
  blockedBy : Option (List String) := none
  metadata : Option (Option String) := none
deriving Repr, DecidableEq

/-- Models `Object.assign(task, updates)`: each field present in the update
overwrites the task's, each absent field is untouched; `id` is not an
update field. -/
def applyUpdate (task : TaskFile) (u : TaskUpdate) : TaskFile :=
  { task with
    subject := u.subject.getD task.subject,
    description := u.description.getD task.description,
    activeForm := u.activeForm.getD task.activeForm,
    owner := u.owner.getD task.owner,
    status := u.status.getD task.status,
    blocks := u.blocks.getD task.blocks,
    blockedBy := u.blockedBy.getD task.blockedBy,
    metadata := u.metadata.getD task.metadata }

/-- Source `TaskManager.update` (src/task-manager.ts): fetches the task, merges
the provided fields onto it, persists, and returns the merged task. -/
def TaskManager.update (s : TaskManager) (taskId : String) (updates : TaskUpdate) :
    Except TaskError (TaskFile × TaskManager) :=
  match s.get taskId with
  | .error e => .error e
  | .ok task =>
    let merged := applyUpdate task updates
    .ok (merged, s.writeTask merged)

/-- The second half of `addBlocks`: for each newly added id, fetch the
target task and, when the source id is not already in its `blockedBy`,
append it and persist the target. A `get` miss throws out of the loop,
leaving the writes made so far in place. -/
def addBlockedBy (s : TaskManager) (taskId : String) (toAdd : List String) :
    TaskManager × Option TaskError :=
  match toAdd with
  | [] => (s, none)
  | blockedId :: rest =>
    match s.get blockedId with
    | .error e => (s, some e)
    | .ok blocked =>
      let s' :=
        if blocked.blockedBy.contains taskId then s
        else s.writeTask { blocked with blockedBy := blocked.blockedBy ++ [taskId] }
      addBlockedBy s' taskId rest

/-- Source `TaskManager.addBlocks` (src/task-manager.ts): fetches the source
task, appends the ids not already in its `blocks`, persists it once,
then adds the reverse `blockedBy` edges one target at a time. The
result is the store state plus the first error thrown, if any. -/
def TaskManager.addBlocks (s : TaskManager) (taskId : String)
    (blockedTaskIds : List String) : TaskManager × Option TaskError :=
  match s.get taskId with
  | .error e => (s, some e)
  | .ok task =>
    let toAdd := blockedTaskIds.filter (fun id => !(task.blocks.contains id))
    let s1 := s.writeTask { task with blocks := task.blocks ++ toAdd }
    addBlockedBy s1 taskId toAdd

/-- Source `TaskManager.delete`: removes the task file if present; a no-op when
it is absent. -/
def TaskManager.delete (s : TaskManager) (taskId : String) : TaskManager :=
  { s with files := s.files.filter (fun t => t.id != taskId) }

/-- A team member (`TeamMember` in `types.ts`). -/
structure TeamMember where
  agentId : String
  name : String
  agentType : String
  joinedAt : Nat
  tmuxPaneId : String := ""
  cwd : String
  subscriptions : List String := []
deriving Repr, DecidableEq

/-- The persisted team record (`TeamConfig` in `types.ts`). -/
structure TeamConfig where
  name : String
  description : Option String := none
  createdAt : Nat
  leadAgentId : String
  leadSessionId : String
  members : List TeamMember
deriving Repr, DecidableEq

/-- Source `TeamManager.create` (src/team-manager.ts): the config written at
team creation; the controller registers itself as the single lead
member named `"controller"`. -/
def createTeamConfig (teamName sessionId : String) (createdAt : Nat)
    (cwd : String) (description : Option String) : TeamConfig :=
  let leadName := "controller"
  let leadAgentId := leadName ++ "@" ++ teamName
  { name := teamName, description := description, createdAt := createdAt,
    leadAgentId := leadAgentId, leadSessionId := sessionId,
    members := [{ agentId := leadAgentId, name := leadName,
                  agentType := "controller", joinedAt := createdAt,
                  tmuxPaneId := "", cwd := cwd, subscriptions := [] }] }

/-- Source `TeamManager.addMember` (src/team-manager.ts): removes any existing
member with the same name, then appends the new member. -/
def addMember (config : TeamConfig) (member : TeamMember) : TeamConfig :=
  { config with
    members := config.members.filter (fun m => m.name != member.name) ++ [member] }

/-- Source `TeamManager.removeMember` (src/team-manager.ts): filters the member
with that name out of the config. -/
def removeMember (config : TeamConfig) (name : String) : TeamConfig :=
  { config with members := config.members.filter (fun m => m.name != name) }

/-- One membership mutation of a team config. -/
inductive TeamOp where
  | add (member : TeamMember)
  | remove (name : String)

/-- A sequence of `addMember`/`removeMember` calls applied in order. -/
def applyOps (config : TeamConfig) (ops : List TeamOp) : TeamConfig :=
  ops.foldl
    (fun cfg op =>
      match op with
      | .add m => addMember cfg m
      | .remove n => removeMember cfg n)
    config

/-- The `type` tag of a classified message: `"plain_text"` for the
fallback, otherwise the string value of the parsed object's `"type"`
key (`""` when that value is not a string). -/
def msgType : StructuredMessage → String
  | .plainText _ => "plain_text"
  | .structured (.obj fields) =>
    match fields.find? (fun kv => kv.fst == "type") with
    | some (_, .str t) => t
    | _ => ""
  | .structured _ => ""

/-- Modelled from the spec: the signal-only classified types
(`idle_notification`, `shutdown_approved`), which convey agent status
rather than conversational content; every other classification is a
content message. The controller source (`src/controller.ts`) is not
part of the corpus. -/
def isSignalOnly (parse : String → Option Json) (m : InboxMessage) : Bool :=
  msgType (parseMessage parse m) == "idle_notification" ||
  msgType (parseMessage parse m) == "shutdown_approved"

/-- The failure of a blocking receive whose deadline elapsed with
nothing to return. -/
inductive ReceiveError where
  | timeout
deriving Repr, DecidableEq

/-- Modelled from the spec: the scanning loop of the coordinator's
blocking `receive(agent, opts)` (the controller source is not in the
corpus). `scans` is the finite sequence of newly-unread batches the
loop observes before its deadline. Each scan keeps only the sender's
messages; if any of them is a content message the content messages of
that scan are returned immediately; otherwise the first signal-only
message observed is remembered. On timeout the remembered signal
message, if any, is returned as a one-element fallback; otherwise the
call fails with `Timeout`. -/
def receiveLoop (parse : String → Option Json) (agentName : String)
    (scans : List (List InboxMessage)) (signalSeen : Option InboxMessage) :
    Except ReceiveError (List InboxMessage) :=
  match scans with
  | [] =>
    match signalSeen with
    | some m => .ok [m]
    | none => .error .timeout
  | batch :: rest =>
    let fromAgent := batch.filter (fun m => m.from_ == agentName)
    let content := fromAgent.filter (fun m => !(isSignalOnly parse m))
    if content.isEmpty then
      receiveLoop parse agentName rest (signalSeen <|> fromAgent.find? (isSignalOnly parse))
    else .ok content

/-- Modelled from the spec: `receive(agent, {timeout})` as the scanning
loop started with no signal observed. -/
def receive (parse : String → Option Json) (agentName : String)
    (scans : List (List InboxMessage)) : Except ReceiveError (List InboxMessage) :=
  receiveLoop parse agentName scans none

/-! ## Concrete instances for closed statements -/

/-- A task draft as in the repository's task-manager tests. -/
def draft1 : TaskDraft := { subject := "Task 1", description := "Do thing 1" }

/-- A second task draft. -/
def draft2 : TaskDraft := { subject := "Task 2", description := "Do thing 2" }

/-- The store reached by: fresh manager, `init`, `create` twice (ids
`"1"` and `"2"`), then `delete` of both tasks — its directory is empty
while its counter is 3. -/
def emptiedStore : TaskManager :=
  (((((TaskManager.fresh []).init.create draft1).2.create draft2).2.delete "1").delete "2")

/-- A persisted task with id `"1"` and no blocking edges. -/
def taskOne : TaskFile :=
  { id := "1", subject := "Research", description := "Research first",
    status := "pending", blocks := [], blockedBy := [] }

/-- A persisted task with id `"2"` and no blocking edges. -/
def taskTwo : TaskFile :=
  { id := "2", subject := "Implement", description := "Then implement",
    status := "pending", blocks := [], blockedBy := [] }

/-- A store holding exactly `taskOne` and `taskTwo`. -/
def storeTwoTasks : TaskManager := { nextId := 3, files := [taskOne, taskTwo] }

/-- A partial update supplying only `status` and `owner`. -/
def statusOwnerUpdate : TaskUpdate :=
  { status := some "in_progress", owner := some (some "worker") }

/-- A worker member as in the repository's team-manager tests. -/
def workerMember : TeamMember :=
  { agentId := "worker@test-team", name := "worker",
    agentType := "general-purpose", joinedAt := 1, cwd := "/tmp" }

/-- A second member that reuses the lead's name `"controller"`. -/
def duplicateController : TeamMember :=
  { agentId := "controller2@test-team", name := "controller",
    agentType := "controller", joinedAt := 2, cwd := "/home" }

/-! ## Helper lemmas -/

/-- After every message is marked read, nothing is unread. -/
theorem filter_unread_map_markRead (l : List InboxMessage) :
    (l.map (fun m => { m with read := true })).filter (fun m => !m.read) = [] := by
  induction l with
  | nil => rfl
  | cons x xs ih => simp [ih]

/-- Every message of a marked-read array has `read = true`. -/
theorem read_of_mem_map_markRead (l : List InboxMessage)
    (m : InboxMessage) (hm : m ∈ l.map (fun m => { m with read := true })) :
    m.read = true := by
  obtain ⟨x, _, rfl⟩ := List.mem_map.mp hm
  rfl

/-- Marking read changes no field other than `read`. -/
theorem map_clearRead_map_markRead (l : List InboxMessage) :
    (l.map (fun m => { m with read := true })).map (fun m => { m with read := false }) =
      l.map (fun m => { m with read := false }) := by
  induction l with
  | nil => rfl
  | cons x xs ih => simp [ih]

/-- A successful `get` returns a stored task whose `id` field is the
requested id (each task file is stored at the path named by its id). -/
theorem get_ok_mem_id {s : TaskManager} {a : String} {t : TaskFile}
    (h : s.get a = .ok t) : t ∈ s.files ∧ t.id = a := by
  cases hf : s.files.find? (fun x => x.id == a) with
  | none => simp [TaskManager.get, hf] at h
  | some u =>
    simp only [TaskManager.get, hf, Except.ok.injEq] at h
    subst h
    refine ⟨List.mem_of_find?_eq_some hf, ?_⟩
    simpa using List.find?_some hf

/-- Overwriting the file with id `t'.id` does not change which file
`find?` locates for any other id. -/
theorem find_replace_other (l : List TaskFile) (t' : TaskFile) (x : String)
    (hne : t'.id ≠ x) :
    (l.map (fun y => if y.id == t'.id then t' else y)).find? (fun y => y.id == x) =
      l.find? (fun y => y.id == x) := by
  induction l with
  | nil => rfl
  | cons y ys ih =>
    rw [List.map_cons]
    by_cases hy : y.id = t'.id
    · rw [if_pos (show (y.id == t'.id) = true by simp [hy])]
      rw [List.find?_cons, List.find?_cons]
      rw [show (t'.id == x) = false by simp [hne]]
      rw [show (y.id == x) = false by simp [hy, hne]]
      exact ih
    · rw [if_neg (show ¬((y.id == t'.id) = true) by simp [hy])]
      rw [List.find?_cons, List.find?_cons]
      cases hx : y.id == x with
      | true => rfl
      | false => exact ih

/-- After overwriting the file with id `a` by `t'` (with `t'.id = a`),
`find?` for `a` locates `t'`, provided a file with id `a` existed. -/
theorem find_replace_self (l : List TaskFile) (t' : TaskFile) (a : String)
    (hid : t'.id = a) (hex : ∃ x ∈ l, x.id = a) :
    (l.map (fun y => if y.id == t'.id then t' else y)).find? (fun y => y.id == a) =
      some t' := by
  induction l with
  | nil => simp at hex
  | cons y ys ih =>
    rw [List.map_cons]
    by_cases hy : y.id = a
    · rw [if_pos (show (y.id == t'.id) = true by simp [hy, hid])]
      rw [List.find?_cons]
      rw [show (t'.id == a) = true by simp [hid]]
    · rw [if_neg (show ¬((y.id == t'.id) = true) by simp [hid, hy])]
      rw [List.find?_cons]
      rw [show (y.id == a) = false by simp [hy]]
      have hex' : ∃ x ∈ ys, x.id = a := by
        obtain ⟨x, hx, hxa⟩ := hex
        cases List.mem_cons.mp hx with
        | inl h => subst h; exact absurd hxa hy
        | inr h => exact ⟨x, h, hxa⟩
      exact ih hex'

/-- Appending a file with a fresh id does not change which file `find?`
locates for any other id. -/
theorem find_append_singleton (l : List TaskFile) (t' : TaskFile) (x : String)
    (hne : t'.id ≠ x) :
    (l ++ [t']).find? (fun y => y.id == x) = l.find? (fun y => y.id == x) := by
  induction l with
  | nil =>
    rw [List.nil_append, List.find?_cons]
    rw [show (t'.id == x) = false by simp [hne]]
  | cons y ys ih =>
    rw [List.cons_append, List.find?_cons, List.find?_cons]
    cases hx : y.id == x with
    | true => rfl
    | false => exact ih

/-- Writing `t'` makes `get t'.id` return `t'` when a file with that
id already existed. -/
theorem get_writeTask_self {s : TaskManager} {a : String} {ta : TaskFile}
    (h : s.get a = .ok ta) (t' : TaskFile) (hid : t'.id = a) :
    (s.writeTask t').get a = .ok t' := by
  obtain ⟨hmem, hta⟩ := get_ok_mem_id h
  have hany : s.files.any (fun x => x.id == t'.id) = true :=
    List.any_eq_true.mpr ⟨ta, hmem, by simp [hta, hid]⟩
  simp only [TaskManager.writeTask, hany, if_true, TaskManager.get]
  rw [find_replace_self s.files t' a hid ⟨ta, hmem, hta⟩]

/-- Writing `t'` leaves `get x` unchanged for every `x ≠ t'.id`. -/
theorem get_writeTask_other {s : TaskManager} (t' : TaskFile) {x : String}
    (hne : t'.id ≠ x) : (s.writeTask t').get x = s.get x := by
  by_cases hany : s.files.any (fun y => y.id == t'.id) = true
  · simp only [TaskManager.writeTask, hany, if_true, TaskManager.get]
    rw [find_replace_other s.files t' x hne]
  · simp only [TaskManager.writeTask, hany, if_false, Bool.false_eq_true, TaskManager.get]
    rw [find_append_singleton s.files t' x hne]

/-- Replacing by `ta` the files whose id is `ta.id` is the identity
when no file has that id. -/
theorem map_replace_not_mem (ys : List TaskFile) (ta : TaskFile)
    (hy : ta.id ∉ ys.map TaskFile.id) :
    ys.map (fun x => if x.id == ta.id then ta else x) = ys := by
  induction ys with
  | nil => rfl
  | cons z zs ih =>
    simp only [List.map_cons, List.mem_cons, not_or] at hy
    have h1 : (z.id == ta.id) = false := by
      simp only [beq_eq_false_iff_ne, ne_eq]
      exact fun heq => hy.1 heq.symm
    simp only [List.map_cons, h1, Bool.false_eq_true, if_false, ih hy.2]

/-- In a directory with no duplicate ids, rewriting a stored task file
with its stored contents is the identity on the file list. -/
theorem map_replace_mem_nodup (l : List TaskFile) (ta : TaskFile)
    (hids : (l.map TaskFile.id).Nodup) (hmem : ta ∈ l) :
    l.map (fun x => if x.id == ta.id then ta else x) = l := by
  induction l with
  | nil => rfl
  | cons y ys ih =>
    rw [List.map_cons, List.nodup_cons] at hids
    rcases List.mem_cons.mp hmem with h | h
    · subst h
      rw [List.map_cons]
      rw [if_pos (show (ta.id == ta.id) = true by simp)]
      rw [map_replace_not_mem ys ta hids.1]
    · have hne : (y.id == ta.id) = false := by
        simp only [beq_eq_false_iff_ne, ne_eq]
        intro heq
        exact hids.1 (heq ▸ List.mem_map_of_mem TaskFile.id h)
      simp only [List.map_cons, hne, Bool.false_eq_true, if_false, ih hids.2 h]

/-- In a directory with no duplicate ids, `writeTask` of an
already-stored task is a no-op on the store. -/
theorem writeTask_mem_same {s : TaskManager} {ta : TaskFile}
    (hids : (s.files.map TaskFile.id).Nodup) (hmem : ta ∈ s.files) :
    s.writeTask ta = s := by
  have hany : s.files.any (fun x => x.id == ta.id) = true :=
    List.any_eq_true.mpr ⟨ta, hmem, by simp⟩
  simp only [TaskManager.writeTask, hany, if_true]
  rw [map_replace_mem_nodup s.files ta hids hmem]

/-- Replacing an existing file never changes the directory's id list. -/
theorem map_id_replace (l : List TaskFile) (t' : TaskFile) :
    (l.map (fun y => if y.id == t'.id then t' else y)).map TaskFile.id =
      l.map TaskFile.id := by
  induction l with
  | nil => rfl
  | cons y ys ih =>
    rw [List.map_cons, List.map_cons, List.map_cons, ih]
    by_cases hy : y.id = t'.id
    · rw [if_pos (show (y.id == t'.id) = true by simp [hy]), hy]
    · rw [if_neg (show ¬((y.id == t'.id) = true) by simp [hy])]

/-- Writing over an existing id preserves the directory's id list. -/
theorem ids_writeTask_existing {s : TaskManager} {t' : TaskFile} {a : String}
    (hid : t'.id = a) (hex : ∃ x ∈ s.files, x.id = a) :
    (s.writeTask t').files.map TaskFile.id = s.files.map TaskFile.id := by
  obtain ⟨x, hx, hxa⟩ := hex
  have hany : s.files.any (fun y => y.id == t'.id) = true :=
    List.any_eq_true.mpr ⟨x, hx, by simp [hxa, hid]⟩
  simp only [TaskManager.writeTask, hany, if_true]
  exact map_id_replace s.files t'

/-- Calling `addBlocks a [b]` is a no-op returning no error when `b` is already
in `a`'s `blocks` (and the directory has no duplicate ids). -/
theorem addBlocks_noop {s : TaskManager} {a b : String} {ta : TaskFile}
    (hids : (s.files.map TaskFile.id).Nodup)
    (ha : s.get a = .ok ta) (hmem : b ∈ ta.blocks) :
    s.addBlocks a [b] = (s, none) := by
  have hamem := (get_ok_mem_id ha).1
  have hfilter : [b].filter (fun id => !(ta.blocks.contains id)) = [] := by
    simp [hmem]
  simp only [TaskManager.addBlocks, ha, hfilter]
  rw [List.append_nil]
  show addBlockedBy (s.writeTask ta) a [] = (s, none)
  rw [writeTask_mem_same hids hamem]
  rfl

/-! ## Claims -/

/-- C1: `readUnread` on a stored mailbox returns exactly the entries
whose `read` flag was false, in their original order (the order-
preserving `filter` of the array), leaves every entry of the persisted
array with `read = true`, and a second call with no intervening write
returns the empty sequence. -/
theorem readUnread_returns_unread_marks_read_idempotent (msgs : List InboxMessage) :
    ∃ msgs',
      readUnread (.stored msgs) = .ok (msgs.filter (fun m => !m.read), .stored msgs') ∧
      (∀ m ∈ msgs', m.read = true) ∧
      readUnread (.stored msgs') = .ok ([], .stored msgs') := by
  by_cases h : (msgs.filter (fun m => !m.read)).isEmpty
  · have hnil : msgs.filter (fun m => !m.read) = [] := by
      simpa [List.isEmpty_iff] using h
    have hall : ∀ m ∈ msgs, m.read = true := by
      intro m hm
      by_contra hr
      have : m ∈ msgs.filter (fun m => !m.read) := by
        simp [List.mem_filter, hm, Bool.eq_false_iff.mpr hr]
      simp [hnil] at this
    exact ⟨msgs, by simp [readUnread, h, hnil], hall, by simp [readUnread, h, hnil]⟩
  · refine ⟨msgs.map (fun m => { m with read := true }), ?_, ?_, ?_⟩
    · simp [readUnread, h]
    · exact read_of_mem_map_markRead msgs
    · simp [readUnread, filter_unread_map_markRead]

/-- C2: `parseMessage` is a total deterministic function of the payload
(its Lean embedding is a total function, so it cannot throw): when the
payload fails to parse, parses to a non-object (null, scalar or
array), or parses to an object without a `"type"` key, the result is
`plain_text` carrying the original payload; when the payload parses to
an object with a `"type"` key — whatever the tag's value — the result
is the parsed object unmodified. -/
theorem parseMessage_total_classification (parse : String → Option Json) (msg : InboxMessage) :
    (parse msg.text = none → parseMessage parse msg = .plainText msg.text) ∧
    (∀ j, parse msg.text = some j → (∀ fields, j ≠ .obj fields) →
      parseMessage parse msg = .plainText msg.text) ∧
    (∀ fields, parse msg.text = some (.obj fields) → hasTypeKey fields = false →
      parseMessage parse msg = .plainText msg.text) ∧
    (∀ fields, parse msg.text = some (.obj fields) → hasTypeKey fields = true →
      parseMessage parse msg = .structured (.obj fields)) := by
  refine ⟨?_, ?_, ?_, ?_⟩
  · intro h; simp [parseMessage, h]
  · intro j h hne
    cases j with
    | obj fields => exact absurd rfl (hne fields)
    | null => simp [parseMessage, h]
    | bool b => simp [parseMessage, h]
    | num n => simp [parseMessage, h]
    | str s => simp [parseMessage, h]
    | arr elems => simp [parseMessage, h]
  · intro fields h hfalse; simp [parseMessage, h, hfalse]
  · intro fields h htrue; simp [parseMessage, h, htrue]

/-- C5: entries written to a stored mailbox via `writeInbox` appear in
a subsequent `readInbox` in append order, each with `read = false`; and
`readUnread` — the only operation that rewrites existing entries —
changes nothing but the `read` flag of the persisted entries. -/
theorem writeInbox_append_order_read_false :
    (∀ msgs ds,
       writeMany (.stored msgs) ds = .ok (.stored (msgs ++ ds.map InboxDraft.toMessage)) ∧
       readInbox (.stored (msgs ++ ds.map InboxDraft.toMessage)) =
         .ok (msgs ++ ds.map InboxDraft.toMessage)) ∧
    (∀ d : InboxDraft, d.toMessage.read = false) ∧
    (∀ msgs unread msgs',
       readUnread (.stored msgs) = .ok (unread, .stored msgs') →
       msgs'.map (fun m => { m with read := false }) =
         msgs.map (fun m => { m with read := false })) := by
  refine ⟨?_, fun _ => rfl, ?_⟩
  · intro msgs ds
    constructor
    · induction ds generalizing msgs with
      | nil => simp [writeMany]
      | cons d rest ih => simpa [writeMany, writeInbox] using ih (msgs ++ [d.toMessage])
    · rfl
  · intro msgs unread msgs' h
    by_cases he : (msgs.filter (fun m => !m.read)).isEmpty
    · simp only [readUnread, he, if_pos] at h
      obtain ⟨-, rfl⟩ : unread = [] ∧ msgs = msgs' := by
        simpa using h
      rfl
    · simp only [readUnread, he, if_neg] at h
      obtain ⟨-, rfl⟩ : msgs.filter (fun m => !m.read) = unread ∧
          msgs.map (fun m => { m with read := true }) = msgs' := by
        simpa using h
      exact map_clearRead_map_markRead msgs

/-- C10: `poll` never throws to its caller: when the mailbox store
surfaces a hard error — unparseable on-disk JSON or lock-acquisition
failure — `poll` catches it, logs it, and returns the empty batch, so
the mailbox corruption that `readUnread` reports as an error appears
to poller clients as a silent empty poll cycle. -/
theorem poll_swallows_mailbox_errors :
    (∀ parse handlers raw,
       readUnread (.corrupt raw) = .error .malformedJson ∧
       poll parse handlers (.corrupt raw) = ([], .corrupt raw, [.pollError .malformedJson])) ∧
    (∀ parse handlers msgs,
       readUnread (.locked msgs) = .error .lockTimeout ∧
       poll parse handlers (.locked msgs) = ([], .locked msgs, [.pollError .lockTimeout])) :=
  ⟨fun _ _ _ => ⟨rfl, rfl⟩, fun _ _ _ => ⟨rfl, rfl⟩⟩

/-- The value `maxIdOf` only depends on the multiset of tasks. -/
theorem maxIdOf_perm {l₁ l₂ : List TaskFile} (p : l₁.Perm l₂) :
    maxIdOf l₁ = maxIdOf l₂ :=
  p.foldl_eq'
    (fun x _ y _ z => by
      rw [Nat.max_assoc, Nat.max_assoc, Nat.max_comm (parseIntId x.id)])
    0

/-- C3 (amended): each `create` returns the string of the current
counter and increments it; `init` re-seeds the counter to (max
existing numeric id + 1) when the task directory is non-empty, and
leaves the counter unchanged when it is empty (so a freshly
constructed manager, whose counter starts at 1, has next id 1 after
`init` on an empty directory); hence after creating ids 1 and 2 and
calling `init()` again the next created task gets id 3. -/
theorem taskIds_increasing_and_init_reseeds :
    (∀ (s : TaskManager) (t : TaskDraft),
       (s.create t).1 = toString s.nextId ∧ (s.create t).2.nextId = s.nextId + 1) ∧
    (∀ s : TaskManager, s.files ≠ [] → s.init.nextId = maxIdOf s.files + 1) ∧
    (∀ s : TaskManager, s.files = [] → s.init = s) ∧
    (TaskManager.fresh []).init.nextId = 1 ∧
    (((TaskManager.fresh []).init.create draft1).1 = "1" ∧
     (((TaskManager.fresh []).init.create draft1).2.create draft2).1 = "2" ∧
     (((((TaskManager.fresh []).init.create draft1).2.create draft2).2.init).create draft1).1
       = "3") := by
  have hperm : ∀ s : TaskManager, s.list.Perm s.files := by
    intro s
    exact List.perm_insertionSort _ s.files
  refine ⟨fun s t => ⟨rfl, rfl⟩, ?_, ?_, rfl, by decide⟩
  · intro s h
    have hlen : 0 < s.list.length := by
      rw [(hperm s).length_eq]
      exact List.length_pos.mpr h
    simp only [TaskManager.init, if_pos hlen]
    rw [maxIdOf_perm (hperm s)]
  · intro s h
    have : s.list = [] := by
      have := (hperm s).length_eq
      rw [h] at this
      simpa using List.length_eq_zero.mp this
    simp [TaskManager.init, this]

/-- C3 counterexample: after creating ids 1 and 2 and deleting both,
the task directory is empty, yet `init` leaves the counter at 3 — the
next created task gets id `"3"`, not the `"1"` the claim's "or 1 if
the task directory is empty" clause predicts. -/
theorem init_on_emptied_store_keeps_counter :
    emptiedStore.files = [] ∧ emptiedStore.init.nextId = 3 ∧
    (emptiedStore.init.create draft1).1 = "3" ∧
    (emptiedStore.init.create draft1).1 ≠ "1" := by decide

/-- C4: for a pair of distinct existing tasks A and B (in a directory
without duplicate ids, and not already asymmetrically linked — the
state `addBlocks` itself maintains), `addBlocks A [B]` succeeds, after
it A's `blocks` contains B and B's `blockedBy` contains A, and calling
`addBlocks A [B]` again leaves the store exactly unchanged (no
duplicate entries in either list). -/
theorem addBlocks_symmetric_idempotent (s : TaskManager) (a b : String) (ta tb : TaskFile)
    (hids : (s.files.map TaskFile.id).Nodup) (hab : a ≠ b)
    (ha : s.get a = .ok ta) (hb : s.get b = .ok tb)
    (hsym : b ∈ ta.blocks → a ∈ tb.blockedBy) :
    ∃ (s' : TaskManager) (ta' tb' : TaskFile),
      s.addBlocks a [b] = (s', none) ∧
      s'.get a = .ok ta' ∧ b ∈ ta'.blocks ∧
      s'.get b = .ok tb' ∧ a ∈ tb'.blockedBy ∧
      s'.addBlocks a [b] = (s', none) := by
  obtain ⟨hamem, haid⟩ := get_ok_mem_id ha
  obtain ⟨hbmem, hbid⟩ := get_ok_mem_id hb
  by_cases hmem : b ∈ ta.blocks
  · exact ⟨s, ta, tb, addBlocks_noop hids ha hmem, ha, hmem, hb, hsym hmem,
      addBlocks_noop hids ha hmem⟩
  · have hfilter : [b].filter (fun id => !(ta.blocks.contains id)) = [b] := by
      simp [hmem]
    have hta'id : (TaskFile.mk ta.id ta.subject ta.description ta.activeForm ta.owner
        ta.status (ta.blocks ++ [b]) ta.blockedBy ta.metadata).id = a := haid
    set ta' : TaskFile := { ta with blocks := ta.blocks ++ [b] } with hta'
    have hs1a : (s.writeTask ta').get a = .ok ta' := get_writeTask_self ha ta' haid
    have hs1b : (s.writeTask ta').get b = .ok tb := by
      rw [get_writeTask_other ta' (show ta'.id ≠ b from haid ▸ hab)]
      exact hb
    have hids1 : ((s.writeTask ta').files.map TaskFile.id).Nodup := by
      rw [ids_writeTask_existing (show ta'.id = a from haid) ⟨ta, hamem, haid⟩]
      exact hids
    have hmem' : b ∈ ta'.blocks := by
      rw [hta']
      exact List.mem_append_right _ (List.mem_singleton.mpr rfl)
    have hstart : s.addBlocks a [b] =
        addBlockedBy (s.writeTask ta') a [b] := by
      simp only [TaskManager.addBlocks, ha, hfilter]
    by_cases hbb : a ∈ tb.blockedBy
    · have hcont : tb.blockedBy.contains a = true := List.elem_eq_true_of_mem hbb
      have hloop : addBlockedBy (s.writeTask ta') a [b] = (s.writeTask ta', none) := by
        simp only [addBlockedBy, hs1b, hcont, if_true]
      refine ⟨s.writeTask ta', ta', tb, hstart.trans hloop, hs1a, hmem', hs1b, hbb, ?_⟩
      exact addBlocks_noop hids1 hs1a hmem'
    · have hcont : tb.blockedBy.contains a = false := by
        cases hc : tb.blockedBy.contains a with
        | false => rfl
        | true => exact absurd (by simpa using hc) hbb
      set tb' : TaskFile := { tb with blockedBy := tb.blockedBy ++ [a] } with htb'
      have hloop : addBlockedBy (s.writeTask ta') a [b] =
          ((s.writeTask ta').writeTask tb', none) := by
        simp only [addBlockedBy, hs1b, hcont, Bool.false_eq_true, if_false]
      have hs2a : ((s.writeTask ta').writeTask tb').get a = .ok ta' := by
        rw [get_writeTask_other tb' (show tb'.id ≠ a from hbid ▸ hab.symm)]
        exact hs1a
      have hs2b : ((s.writeTask ta').writeTask tb').get b = .ok tb' :=
        get_writeTask_self hs1b tb' hbid
      have hids2 : (((s.writeTask ta').writeTask tb').files.map TaskFile.id).Nodup := by
        rw [ids_writeTask_existing (show tb'.id = b from hbid)
          ⟨tb, (get_ok_mem_id hs1b).1, hbid⟩]
        exact hids1
      refine ⟨(s.writeTask ta').writeTask tb', ta', tb', hstart.trans hloop, hs2a, hmem',
        hs2b, List.mem_append_right _ (List.mem_singleton.mpr rfl), ?_⟩
      exact addBlocks_noop hids2 hs2a hmem'

/-- C4 witness: a store with two tasks `"1"` and `"2"`; adding the
block edge establishes both directions and a second call changes
nothing. -/
theorem addBlocks_symmetric_idempotent_witness :
    ∃ (s' : TaskManager) (ta' tb' : TaskFile),
      storeTwoTasks.addBlocks "1" ["2"] = (s', none) ∧
      s'.get "1" = .ok ta' ∧ "2" ∈ ta'.blocks ∧
      s'.get "2" = .ok tb' ∧ "1" ∈ tb'.blockedBy ∧
      s'.addBlocks "1" ["2"] = (s', none) :=
  addBlocks_symmetric_idempotent storeTwoTasks "1" "2" taskOne taskTwo
    (by decide) (by decide) rfl rfl (by decide)

/-- The handler loop applies every handler to the same full batch: its
log is the error results of mapping each handler over the batch. -/
theorem runHandlers_eq_filterMap (handlers : List Handler) (events : List PollEvent)
    (log : List LogEntry) :
    runHandlers handlers events log =
      log ++ (handlers.map (fun h => h events)).filterMap
        (fun r => match r with | .ok _ => none | .error e => some (.handlerError e)) := by
  induction handlers generalizing log with
  | nil => simp [runHandlers]
  | cons h rest ih =>
    cases hr : h events with
    | ok u =>
      simp only [runHandlers, hr, List.map_cons, List.filterMap_cons]
      exact ih log
    | error e =>
      simp only [runHandlers, hr, List.map_cons, List.filterMap_cons]
      rw [ih (log ++ [LogEntry.handlerError e])]
      simp

/-- C7: handler invocation is isolated. On a batch with at least one
unread entry, `poll` applies every registered handler to the full
classified batch — the log is the per-handler error results of that
map, so one handler's exception neither prevents any other handler
from receiving the full batch nor changes poll's returned events — and
the poll call itself returns the batch normally. -/
theorem poll_handler_isolation (parse : String → Option Json) (handlers : List Handler)
    (msgs : List InboxMessage) (hne : msgs.filter (fun m => !m.read) ≠ []) :
    poll parse handlers (.stored msgs) =
      ((msgs.filter (fun m => !m.read)).map (fun raw => ⟨raw, parseMessage parse raw⟩),
       .stored (msgs.map (fun m => { m with read := true })),
       (handlers.map (fun h =>
           h ((msgs.filter (fun m => !m.read)).map
             (fun raw => ⟨raw, parseMessage parse raw⟩)))).filterMap
         (fun r => match r with | .ok _ => none | .error e => some (.handlerError e))) := by
  have he : (msgs.filter (fun m => !m.read)).isEmpty = false := by
    simpa [List.isEmpty_iff] using hne
  simp [poll, readUnread, he, runHandlers_eq_filterMap]

/-- C7 witness: one unread message, a first handler that throws and a
second that succeeds; poll returns the one-event batch, marks the
message read, and logs exactly the first handler's error. -/
theorem poll_handler_isolation_witness :
    poll (fun _ => none)
        [fun _ => .error "Handler exploded", fun _ => .ok ()]
        (.stored [{ from_ := "worker", text := "hi", timestamp := "t", read := false }]) =
      ([⟨{ from_ := "worker", text := "hi", timestamp := "t", read := false },
         .plainText "hi"⟩],
       .stored [{ from_ := "worker", text := "hi", timestamp := "t", read := true }],
       [.handlerError "Handler exploded"]) := by
  rw [poll_handler_isolation (fun _ => none)
    [fun _ => .error "Handler exploded", fun _ => .ok ()]
    [{ from_ := "worker", text := "hi", timestamp := "t", read := false }] (by decide)]
  rfl

/-- C8: `update` merges only the provided fields: it returns (and
persists, under the stored task's id) exactly the old task overwritten
by the present update fields; every absent field retains its prior
value, the task's id is unchanged, and every other stored task is
untouched. -/
theorem update_merges_only_provided_fields (s : TaskManager) (taskId : String)
    (u : TaskUpdate) (t : TaskFile) (h : s.get taskId = .ok t) :
    s.update taskId u = .ok (applyUpdate t u, s.writeTask (applyUpdate t u)) ∧
    (s.writeTask (applyUpdate t u)).get taskId = .ok (applyUpdate t u) ∧
    (∀ x, x ≠ taskId → (s.writeTask (applyUpdate t u)).get x = s.get x) ∧
    (applyUpdate t u).id = t.id ∧
    (u.subject = none → (applyUpdate t u).subject = t.subject) ∧
    (∀ v, u.subject = some v → (applyUpdate t u).subject = v) ∧
    (u.description = none → (applyUpdate t u).description = t.description) ∧
    (∀ v, u.description = some v → (applyUpdate t u).description = v) ∧
    (u.activeForm = none → (applyUpdate t u).activeForm = t.activeForm) ∧
    (∀ v, u.activeForm = some v → (applyUpdate t u).activeForm = v) ∧
    (u.owner = none → (applyUpdate t u).owner = t.owner) ∧
    (∀ v, u.owner = some v → (applyUpdate t u).owner = v) ∧
    (u.status = none → (applyUpdate t u).status = t.status) ∧
    (∀ v, u.status = some v → (applyUpdate t u).status = v) ∧
    (u.blocks = none → (applyUpdate t u).blocks = t.blocks) ∧
    (∀ v, u.blocks = some v → (applyUpdate t u).blocks = v) ∧
    (u.blockedBy = none → (applyUpdate t u).blockedBy = t.blockedBy) ∧
    (∀ v, u.blockedBy = some v → (applyUpdate t u).blockedBy = v) ∧
    (u.metadata = none → (applyUpdate t u).metadata = t.metadata) ∧
    (∀ v, u.metadata = some v → (applyUpdate t u).metadata = v) := by
  obtain ⟨hmem, hid⟩ := get_ok_mem_id h
  have hid' : (applyUpdate t u).id = taskId := hid
  refine ⟨?_, get_writeTask_self h _ hid', ?_, rfl,
    ?_, ?_, ?_, ?_, ?_, ?_, ?_, ?_, ?_, ?_, ?_, ?_, ?_, ?_, ?_, ?_⟩
  · simp only [TaskManager.update, h]
  · intro x hx
    refine get_writeTask_other _ ?_
    rw [hid']
    exact Ne.symm hx
  all_goals
    first
      | (intro hv; simp [applyUpdate, hv])
      | (intro v hv; simp [applyUpdate, hv])

/-- C8 witness: updating task `"1"`'s status and owner returns the
merged task with the new status, the old subject, and leaves task
`"2"` untouched. -/
theorem update_merges_only_provided_fields_witness :
    storeTwoTasks.update "1" statusOwnerUpdate =
      .ok (applyUpdate taskOne statusOwnerUpdate,
        storeTwoTasks.writeTask (applyUpdate taskOne statusOwnerUpdate)) ∧
    (applyUpdate taskOne statusOwnerUpdate).status = "in_progress" ∧
    (applyUpdate taskOne statusOwnerUpdate).subject = "Research" ∧
    (storeTwoTasks.writeTask (applyUpdate taskOne statusOwnerUpdate)).get "2" =
      storeTwoTasks.get "2" := by
  have h := update_merges_only_provided_fields storeTwoTasks "1" statusOwnerUpdate taskOne rfl
  exact ⟨h.1, rfl, rfl, h.2.2.1 "2" (by decide)⟩

/-- Adding a member keeps member names duplicate-free. -/
theorem nodupNames_addMember {l : List TeamMember} {m : TeamMember}
    (h : (l.map TeamMember.name).Nodup) :
    (((l.filter (fun x => x.name != m.name)) ++ [m]).map TeamMember.name).Nodup := by
  rw [List.map_append]
  refine List.Nodup.append ?_ (by simp) ?_
  · exact List.Nodup.sublist ((List.filter_sublist l).map _) h
  · intro nm hnm hm'
    have : nm = m.name := by simpa using hm'
    subst this
    obtain ⟨x, hx, hxn⟩ := List.mem_map.mp hnm
    have := (List.mem_filter.mp hx).2
    rw [hxn] at this
    simp at this

/-- Removing a member keeps member names duplicate-free. -/
theorem nodupNames_removeMember {l : List TeamMember} {n : String}
    (h : (l.map TeamMember.name).Nodup) :
    ((l.filter (fun x => x.name != n)).map TeamMember.name).Nodup :=
  List.Nodup.sublist ((List.filter_sublist l).map _) h

/-- Every sequence of membership mutations keeps names duplicate-free. -/
theorem applyOps_nodup (ops : List TeamOp) : ∀ cfg : TeamConfig,
    (cfg.members.map TeamMember.name).Nodup →
    ((applyOps cfg ops).members.map TeamMember.name).Nodup := by
  induction ops with
  | nil => exact fun cfg h => h
  | cons op rest ih =>
    intro cfg h
    cases op with
    | add m => exact ih _ (nodupNames_addMember h)
    | remove n => exact ih _ (nodupNames_removeMember h)

/-- In a duplicate-free member list, filtering out one present name
removes exactly one member. -/
theorem length_filter_name_ne {l : List TeamMember} {nm : String}
    (h : (l.map TeamMember.name).Nodup) (hm : nm ∈ l.map TeamMember.name) :
    (l.filter (fun x => x.name != nm)).length + 1 = l.length := by
  induction l with
  | nil => simp at hm
  | cons y ys ih =>
    rw [List.map_cons, List.nodup_cons] at h
    rcases List.mem_cons.mp hm with heq | hmem
    · have hy : (y.name != nm) = false := by simp [heq]
      have hys : ys.filter (fun x => x.name != nm) = ys := by
        refine List.filter_eq_self.mpr ?_
        intro x hx
        simp only [bne_iff_ne, ne_eq, decide_eq_true_eq]
        intro heq'
        refine h.1 ?_
        rw [← heq, ← heq']
        exact List.mem_map_of_mem TeamMember.name hx
      simp [List.filter_cons, hy, hys]
    · have hy : (y.name != nm) = true := by
        simp only [bne_iff_ne, ne_eq]
        intro heq'
        exact h.1 (heq' ▸ hmem)
      have := ih h.2 hmem
      simp only [List.filter_cons, hy, if_true, List.length_cons]
      omega

/-- C9: member names are unique within a team: starting from team
creation (one lead member), any sequence of `addMember` and
`removeMember` calls leaves the member names duplicate-free; and
adding a member whose name is already present replaces the existing
entry rather than appending (the member count does not grow). -/
theorem member_names_unique (team sid cwd : String) (ts : Nat) (desc : Option String)
    (ops : List TeamOp) (cfg : TeamConfig) (m : TeamMember)
    (hnd : (cfg.members.map TeamMember.name).Nodup)
    (hdup : m.name ∈ cfg.members.map TeamMember.name) :
    ((applyOps (createTeamConfig team sid ts cwd desc) ops).members.map TeamMember.name).Nodup ∧
    (addMember cfg m).members.length = cfg.members.length := by
  constructor
  · apply applyOps_nodup
    simp [createTeamConfig]
  · simp only [addMember, List.length_append, List.length_cons, List.length_nil,
      Nat.zero_add]
    exact length_filter_name_ne hnd hdup

/-- C9 witness: the fresh `"test-team"` config, an add of a worker and
its removal stay duplicate-free, and re-adding a member named
`"controller"` replaces the lead rather than appending. -/
theorem member_names_unique_witness :
    ((applyOps (createTeamConfig "test-team" "sid" 0 "/tmp" none)
        [TeamOp.add workerMember, TeamOp.remove "worker"]).members.map
      TeamMember.name).Nodup ∧
    (addMember (createTeamConfig "test-team" "sid" 0 "/tmp" none)
        duplicateController).members.length
      = (createTeamConfig "test-team" "sid" 0 "/tmp" none).members.length :=
  member_names_unique "test-team" "sid" "/tmp" 0 none
    [TeamOp.add workerMember, TeamOp.remove "worker"]
    (createTeamConfig "test-team" "sid" 0 "/tmp" none) duplicateController
    (by decide) (by decide)

/-- In a scan whose sender messages are all signal-only, no content
message survives the two filters. -/
theorem filter_content_eq_nil (parse : String → Option Json) (agentName : String)
    (batch : List InboxMessage)
    (hb : ∀ m ∈ batch, m.from_ = agentName → isSignalOnly parse m = true) :
    (batch.filter (fun m => m.from_ == agentName)).filter
      (fun m => !(isSignalOnly parse m)) = [] := by
  refine List.filter_eq_nil_iff.mpr ?_
  intro m hm
  have h1 := List.mem_filter.mp hm
  have h2 : m.from_ = agentName := by simpa using h1.2
  simp [hb m h1.1 h2]

/-- Once a signal message has been remembered and every later scan
holds only signal messages from the sender, the loop times out into
the one-element fallback. -/
theorem receiveLoop_signal_some (parse : String → Option Json) (agentName : String)
    (m0 : InboxMessage) : ∀ scans : List (List InboxMessage),
    (∀ batch ∈ scans, ∀ m ∈ batch, m.from_ = agentName → isSignalOnly parse m = true) →
    receiveLoop parse agentName scans (some m0) = .ok [m0] := by
  intro scans
  induction scans with
  | nil => exact fun _ => rfl
  | cons batch rest ih =>
    intro hnc
    have hcon := filter_content_eq_nil parse agentName batch
      (hnc batch (List.mem_cons_self _ _))
    simp only [receiveLoop, hcon, List.isEmpty_nil, if_true]
    exact ih fun b hb => hnc b (List.mem_cons_of_mem _ hb)

/-- C6 (modelled from the spec, the controller source being outside
the corpus): when a blocking `receive` observes no content message
from the sender before its deadline, then if at least one message from
the sender was observed (necessarily signal-only) the call returns a
one-element fallback holding a signal-only message from that sender
instead of raising `Timeout`; and when nothing from the sender is
observed at all, the call fails with `Timeout`. -/
theorem receive_signal_fallback_or_timeout (parse : String → Option Json)
    (agentName : String) (scans : List (List InboxMessage)) :
    ((∀ batch ∈ scans, ∀ m ∈ batch, m.from_ = agentName → isSignalOnly parse m = true) →
      (∃ batch ∈ scans, ∃ m ∈ batch, m.from_ = agentName) →
      ∃ m, receive parse agentName scans = .ok [m] ∧ m.from_ = agentName ∧
        isSignalOnly parse m = true) ∧
    ((∀ batch ∈ scans, ∀ m ∈ batch, m.from_ ≠ agentName) →
      receive parse agentName scans = .error .timeout) := by
  constructor
  · induction scans with
    | nil =>
      intro _ hsig
      obtain ⟨batch, hbatch, -⟩ := hsig
      simp at hbatch
    | cons batch rest ih =>
      intro hnc hsig
      have hcon := filter_content_eq_nil parse agentName batch
        (hnc batch (List.mem_cons_self _ _))
      cases hfa : batch.filter (fun m => m.from_ == agentName) with
      | nil =>
        have hstep : receive parse agentName (batch :: rest) =
            receiveLoop parse agentName rest none := by
          simp only [receive, receiveLoop, hfa, List.filter_nil, List.isEmpty_nil,
            if_true, List.find?_nil, Option.none_orElse]
        obtain ⟨b0, hb0, m1, hm1, hfrom⟩ := hsig
        rcases List.mem_cons.mp hb0 with rfl | hb0'
        · exfalso
          have : m1 ∈ b0.filter (fun m => m.from_ == agentName) := by
            refine List.mem_filter.mpr ⟨hm1, ?_⟩
            simp [hfrom]
          rw [hfa] at this
          simp at this
        · obtain ⟨m, hrec, hf, hs⟩ :=
            ih (fun b hb => hnc b (List.mem_cons_of_mem _ hb)) ⟨b0, hb0', m1, hm1, hfrom⟩
          exact ⟨m, hstep.trans hrec, hf, hs⟩
      | cons m0 tail =>
        have hm0mem : m0 ∈ batch.filter (fun m => m.from_ == agentName) := by
          rw [hfa]
          exact List.mem_cons_self _ _
        have hm0batch := (List.mem_filter.mp hm0mem).1
        have hm0from : m0.from_ = agentName := by
          simpa using (List.mem_filter.mp hm0mem).2
        have hm0sig : isSignalOnly parse m0 = true :=
          hnc batch (List.mem_cons_self _ _) m0 hm0batch hm0from
        have hfind : (batch.filter (fun m => m.from_ == agentName)).find?
            (isSignalOnly parse) = some m0 := by
          rw [hfa, List.find?_cons, hm0sig]
        have hstep : receive parse agentName (batch :: rest) =
            receiveLoop parse agentName rest (some m0) := by
          simp only [receive, receiveLoop, hcon, List.isEmpty_nil, if_true, hfind,
            Option.none_orElse]
        refine ⟨m0, hstep.trans ?_, hm0from, hm0sig⟩
        exact receiveLoop_signal_some parse agentName m0 rest
          fun b hb => hnc b (List.mem_cons_of_mem _ hb)
  · induction scans with
    | nil => exact fun _ => rfl
    | cons batch rest ih =>
      intro hno
      have hfa : batch.filter (fun m => m.from_ == agentName) = [] := by
        refine List.filter_eq_nil_iff.mpr ?_
        intro m hm
        simp [hno batch (List.mem_cons_self _ _) m hm]
      have hstep : receive parse agentName (batch :: rest) =
          receiveLoop parse agentName rest none := by
        simp only [receive, receiveLoop, hfa, List.filter_nil, List.isEmpty_nil,
          if_true, List.find?_nil, Option.none_orElse]
      exact hstep.trans (ih fun b hb => hno b (List.mem_cons_of_mem _ hb))

end Companion
